import Mathlib

/-!
Verification of the rtd-email-service repository: a shallow embedding of
`src/emailScrapper/scrapper.py` (namespace `Scrapper`) and
`src/emailService/main.py` (namespace `Service`), with theorems about the
extraction and send-orchestration logic.

Python strings are modelled as `List Char` where character-level operations
matter (the scrapper), and as opaque `String`s where they are only compared
(the service).
-/

namespace Scrapper

/-- Python strings, modelled at character level. -/
abbrev PyStr := List Char

/-- Python `"mailto:" in href` (substring containment of the fixed pattern). -/
def containsMailto : PyStr → Bool
  | 'm' :: 'a' :: 'i' :: 'l' :: 't' :: 'o' :: ':' :: _ => true
  | _ :: cs => containsMailto cs
  | [] => false

/-- Python `s.replace("mailto:", "")`: remove every occurrence of the pattern,
scanning left to right, non-overlapping, resuming after each removal. -/
def removeMailto : PyStr → PyStr
  | 'm' :: 'a' :: 'i' :: 'l' :: 't' :: 'o' :: ':' :: rest => removeMailto rest
  | c :: cs => c :: removeMailto cs
  | [] => []

/-- The whitespace characters stripped by Python `str.strip()` (ASCII part). -/
def isSpaceChar (c : Char) : Bool :=
  c == ' ' || c == '\t' || c == '\n' || c == '\r' || c == '\x0b' || c == '\x0c'

/-- Drop leading whitespace. -/
def dropSpaces : PyStr → PyStr
  | [] => []
  | c :: cs => if isSpaceChar c then dropSpaces cs else c :: cs

/-- Python `s.strip()`: remove leading and trailing whitespace. -/
def pyStrip (s : PyStr) : PyStr :=
  (dropSpaces (dropSpaces s).reverse).reverse

/-- An anchor element of a parsed page: only its `href` attribute matters
(`none` when the attribute is absent). -/
structure Anchor where
  href : Option PyStr
deriving DecidableEq

/-- A parsed detail page: only the contact container matters.
`contactDiv = none` models `soup.find("div", class_=...)` returning `None`;
otherwise it holds the anchors `find_all` would enumerate inside it. -/
structure Doc where
  contactDiv : Option (List Anchor)
deriving DecidableEq

/-- Result of a country extraction: `{"emails": [...]}` or `{"error": ...}`. -/
inductive EmailResult where
  | Found (emails : List PyStr)
  | NotFound (error : String)
deriving DecidableEq

/-- The `find_all` filter: `lambda href: href and "mailto:" in href`. -/
def hrefIsMailto (a : Anchor) : Bool :=
  match a.href with
  | some h => containsMailto h
  | none => false

/-- Loop body of `extract_embassy_emails`:
`email = link["href"].replace("mailto:", "").strip()` followed by
`if email and email not in emails: emails.append(email)`. -/
def processLink (emails : List PyStr) (a : Anchor) : List PyStr :=
  let email := pyStrip (removeMailto (a.href.getD []))
  if !email.isEmpty && !emails.contains email then emails ++ [email] else emails

/-- `EmbassyScraper.extract_embassy_emails` from scrapper.py. -/
def extract_embassy_emails (soup : Doc) : EmailResult :=
  match soup.contactDiv with
  | none => .NotFound "Contact section not found"
  | some anchors =>
    let email_links := anchors.filter hrefIsMailto
    let emails := email_links.foldl processLink []
    if emails.isEmpty then .NotFound "No embassy emails found" else .Found emails

/-- Deduplication preserving first-seen order (appending each element not
already kept). -/
def dedupAux (acc : List PyStr) : List PyStr → List PyStr
  | [] => acc
  | x :: xs => if acc.contains x then dedupAux acc xs else dedupAux (acc ++ [x]) xs

/-- Strip the `mailto:` scheme prefix, when present, once. -/
def stripMailtoOnce : PyStr → PyStr
  | 'm' :: 'a' :: 'i' :: 'l' :: 't' :: 'o' :: ':' :: rest => rest
  | s => s

/-- The address sequence as the spec's words describe it: for each anchor whose
link contains `mailto:`, strip the `mailto:` scheme prefix and surrounding
whitespace, then deduplicate preserving first-seen order. -/
def specEmails (anchors : List Anchor) : List PyStr :=
  dedupAux [] ((anchors.filter hrefIsMailto).map
    (fun a => pyStrip (stripMailtoOnce (a.href.getD []))))

/-- The address sequence the code actually collects: remove every occurrence of
`mailto:`, strip whitespace, drop empty results, deduplicate preserving
first-seen order. -/
def codeEmails (anchors : List Anchor) : List PyStr :=
  dedupAux [] (((anchors.filter hrefIsMailto).map
    (fun a => pyStrip (removeMailto (a.href.getD [])))).filter (fun e => !e.isEmpty))

/-- A country link harvested from the directory page. -/
structure Country where
  name : String
  url : String
deriving DecidableEq

/-- Outcome of fetching and parsing one detail page: `ok` when
`requests.get` + `raise_for_status` + parsing succeed, `err` with the
exception message otherwise. -/
inductive FetchResult where
  | ok (doc : Doc)
  | err (msg : String)

/-- Observable events of a scrape run. -/
inductive SEvent where
  | sleep (n : Nat)
deriving DecidableEq

/-- The scrape mapping `self.embassy_data`. -/
abbrev EmbassyData := List (String × EmailResult)

end Scrapper

/-- Python dict assignment `d[k] = v` on an association list: overwrite in
place when the key exists, append otherwise. -/
def dictInsert {α : Type} (d : List (String × α)) (k : String) (v : α) :
    List (String × α) :=
  if d.any (fun p => p.1 == k) then
    d.map (fun p => if p.1 == k then (k, v) else p)
  else d ++ [(k, v)]

/-- Python dict lookup `d[k]` / `d.get(k)`. -/
def dictLookup {α : Type} (d : List (String × α)) (k : String) : Option α :=
  (d.find? (fun p => p.1 == k)).map Prod.snd

/-- Python `k in d`. -/
def dictContains {α : Type} (d : List (String × α)) (k : String) : Bool :=
  d.any (fun p => p.1 == k)

namespace Scrapper

/-- `EmbassyScraper.scrape_country`: fetch the detail page; on success run the
extractor, store its result, and sleep 2 seconds; on a fetch exception store
`{"error": str(e)}` and (the `time.sleep(2)` being inside the `try`) take no
delay. -/
def scrape_country (fetch : String → FetchResult) (data : EmbassyData)
    (c : Country) : EmbassyData × List SEvent :=
  match fetch c.url with
  | .ok doc => (dictInsert data c.name (extract_embassy_emails doc), [SEvent.sleep 2])
  | .err m => (dictInsert data c.name (.NotFound m), [])

/-- The per-country loop of `EmbassyScraper.scrape_all_countries`. -/
def scrape_all (fetch : String → FetchResult) :
    EmbassyData → List Country → EmbassyData × List SEvent
  | data, [] => (data, [])
  | data, c :: cs =>
    let r1 := scrape_country fetch data c
    let r2 := scrape_all fetch r1.1 cs
    (r2.1, r1.2 ++ r2.2)

end Scrapper

namespace Service

/-- One entry of the Send Log (`sent_emails.json`):
`{'email': ..., 'sent_date': ..., 'status': 'sent'}`. -/
structure LogEntry where
  email : String
  sent_date : String
  status : String
deriving DecidableEq

/-- The Send Log mapping, country name → entry. -/
abbrev SendLog := List (String × LogEntry)

/-- One value of the scrape artifact: `{"emails": [...]}` or `{"error": ...}`
(the schema of `embassy_emails.json`). -/
inductive Info where
  | found (emails : List String)
  | notFound (error : String)
deriving DecidableEq

/-- The loaded scrape artifact, country name → info. -/
abbrev ServiceData := List (String × Info)

/-- Observable events of a send run: a call to `send_email` (an email
transmission attempt), a `save_sent_log` persistence of the given log state,
a "No email found" warning for a country, and a `time.sleep`. -/
inductive Event where
  | send (email country : String)
  | save (log : SendLog)
  | warn (country : String)
  | sleep (n : Nat)
deriving DecidableEq

/-- `'emails' in info and info['emails']` is truthy: the country has a
non-empty email list. -/
def hasEmails : Info → Bool
  | .found (_ :: _) => true
  | _ => false

/-- The `for country, info in embassy_data.items()` loop of
`EmbassyEmailer.process_embassies`.

Parameters: `bs` is `batch_size`; `sendOk email country` is the outcome of
`self.send_email(email, country, attachments)` (`False` when the transport or
composition raises, since `send_email` catches all exceptions); `ts p` is
`datetime.now().isoformat()` at the step with `processed == p`; `n` is the
current value of `processed`; `log` is `sent_log`.

Returns the final `sent_log` and the trace of events. Note the two `continue`
statements skip the `processed % batch_size == 0` check at the bottom of the
loop body. -/
def process_loop (bs : Nat) (sendOk : String → String → Bool)
    (ts : Nat → String) : Nat → SendLog → ServiceData → SendLog × List Event
  | _, log, [] => (log, [])
  | n, log, (country, info) :: rest =>
    let p := n + 1
    if dictContains log country then
      process_loop bs sendOk ts p log rest
    else
      match info with
      | .notFound _ =>
        let r := process_loop bs sendOk ts p log rest
        (r.1, Event.warn country :: r.2)
      | .found [] =>
        let r := process_loop bs sendOk ts p log rest
        (r.1, Event.warn country :: r.2)
      | .found (email :: _) =>
        let step :=
          if sendOk email country then
            let lg := dictInsert log country ⟨email, ts p, "sent"⟩
            (lg, [Event.send email country, Event.save lg, Event.sleep 60])
          else
            (log, [Event.send email country])
        let evs := if p % bs == 0 then step.2 ++ [Event.sleep 3600] else step.2
        let r := process_loop bs sendOk ts p step.1 rest
        (r.1, evs ++ r.2)

/-- State of a JSON file on disk: absent, or present with the outcome of
reading and parsing it (`.error` when `json.load` or the read raises). -/
inductive FileState (α : Type) where
  | absent
  | present (parse : Except String α)

/-- `EmbassyEmailer.load_sent_log`: `{}` when the file does not exist, the
parsed mapping on success, and — the whole body being wrapped in
`try/except Exception` — `{}` when reading or parsing raises. -/
def load_sent_log (f : FileState SendLog) : SendLog :=
  match f with
  | .absent => []
  | .present (.ok log) => log
  | .present (.error _) => []

/-- `EmbassyEmailer.load_embassy_data`: the parsed mapping on success, `{}`
when opening (file absent) or parsing raises. -/
def load_embassy_data (f : FileState ServiceData) : ServiceData :=
  match f with
  | .absent => []
  | .present (.ok d) => d
  | .present (.error _) => []

/-- `EmbassyEmailer.process_embassies`: load the artifact and the Send Log,
then run the per-country loop with `processed = 0`. -/
def process_embassies (bs : Nat) (sendOk : String → String → Bool)
    (ts : Nat → String) (dataFile : FileState ServiceData)
    (logFile : FileState SendLog) : SendLog × List Event :=
  process_loop bs sendOk ts 0 (load_sent_log logFile) (load_embassy_data dataFile)

/-- Is this event an email transmission (a call to `send_email`)? -/
def isSend : Event → Bool
  | .send _ _ => true
  | _ => false

/-- The email transmissions of a trace. -/
def sends (t : List Event) : List Event := t.filter isSend

/-- Number of long (3600-second) pauses in a trace. -/
def countLong (t : List Event) : Nat :=
  (t.filter (fun e => e == Event.sleep 3600)).length

/-- Every country of the artifact that has a non-empty email list already
appears in the Send Log. -/
def coveredBy (log : SendLog) (data : ServiceData) : Bool :=
  data.all (fun ci => !hasEmails ci.2 || dictContains log ci.1)

/-- The status a country ends the loop body in. -/
inductive CStatus where
  | skippedAlready
  | skippedNoEmail
  | sentOk
  | sendFailed
deriving DecidableEq

/-- Did the country's processing get past both skip checks (so that the
bottom-of-body batch check is reached)? -/
def attempted : CStatus → Bool
  | .sentOk => true
  | .sendFailed => true
  | _ => false

/-- Projection of the loop: the status of each country, in artifact order,
threading the Send Log exactly as `process_loop` does. -/
def runStatuses (sendOk : String → String → Bool) (ts : Nat → String) :
    Nat → SendLog → ServiceData → List CStatus
  | _, _, [] => []
  | n, log, (country, info) :: rest =>
    let p := n + 1
    if dictContains log country then
      .skippedAlready :: runStatuses sendOk ts p log rest
    else
      match info with
      | .notFound _ => .skippedNoEmail :: runStatuses sendOk ts p log rest
      | .found [] => .skippedNoEmail :: runStatuses sendOk ts p log rest
      | .found (email :: _) =>
        if sendOk email country then
          .sentOk :: runStatuses sendOk ts p
            (dictInsert log country ⟨email, ts p, "sent"⟩) rest
        else
          .sendFailed :: runStatuses sendOk ts p log rest

/-- How many of the statuses, at their 1-based positions continuing from `n`,
fall on a batch boundary (`position % bs == 0`) while being attempted. -/
def boundaryCount (bs : Nat) : Nat → List CStatus → Nat
  | _, [] => 0
  | n, s :: rest =>
    (if (n + 1) % bs == 0 && attempted s then 1 else 0) + boundaryCount bs (n + 1) rest

end Service

/-! ## Dictionary lemmas -/

theorem keys_map_insertFun {α : Type} (d : List (String × α)) (k : String) (v : α) :
    (d.map (fun p => if p.1 == k then (k, v) else p)).map Prod.fst = d.map Prod.fst := by
  induction d with
  | nil => rfl
  | cons p t ih =>
    simp only [List.map_cons, ih]
    by_cases h : p.1 == k
    · rw [if_pos h]
      exact congrArg (· :: t.map Prod.fst) (eq_of_beq h).symm
    · rw [if_neg (by simpa using h)]

theorem dictContains_eq_mem {α : Type} (d : List (String × α)) (c : String) :
    dictContains d c = true ↔ c ∈ d.map Prod.fst := by
  simp only [dictContains, List.any_eq_true, List.mem_map, beq_iff_eq]

theorem dictInsert_keys {α : Type} (d : List (String × α)) (k : String) (v : α) :
    (dictInsert d k v).map Prod.fst =
      if dictContains d k then d.map Prod.fst else d.map Prod.fst ++ [k] := by
  unfold dictInsert dictContains
  by_cases h : d.any (fun p => p.1 == k)
  · rw [if_pos h, if_pos h, keys_map_insertFun]
  · rw [if_neg (by simpa using h), if_neg (by simpa using h)]
    simp

theorem dictInsert_of_not_contains {α : Type} {d : List (String × α)} {k : String}
    (h : dictContains d k = false) (v : α) : dictInsert d k v = d ++ [(k, v)] := by
  unfold dictInsert
  rw [show d.any (fun p => p.1 == k) = dictContains d k from rfl, h]
  simp

theorem dictContains_insert_self {α : Type} (d : List (String × α)) (k : String) (v : α) :
    dictContains (dictInsert d k v) k = true := by
  rw [dictContains_eq_mem, dictInsert_keys]
  by_cases h : dictContains d k
  · rw [if_pos h]
    exact (dictContains_eq_mem d k).mp h
  · rw [if_neg h]
    simp

theorem dictContains_insert_mono {α : Type} {d : List (String × α)} {c : String}
    (h : dictContains d c = true) (k : String) (v : α) :
    dictContains (dictInsert d k v) c = true := by
  rw [dictContains_eq_mem, dictInsert_keys]
  rw [dictContains_eq_mem] at h
  by_cases hk : dictContains d k
  · rw [if_pos hk]; exact h
  · rw [if_neg hk]; exact List.mem_append_left _ h

theorem dictLookup_append_of_some {α : Type} {d : List (String × α)} {c : String}
    {v : α} (h : dictLookup d c = some v) (l : List (String × α)) :
    dictLookup (d ++ l) c = some v := by
  unfold dictLookup at *
  rw [List.find?_append]
  cases hf : d.find? (fun p => p.1 == c) with
  | none => rw [hf] at h; simp at h
  | some p => rw [hf] at h; simpa using h

theorem dictLookup_eq_none_iff {α : Type} (d : List (String × α)) (c : String) :
    dictLookup d c = none ↔ dictContains d c = false := by
  unfold dictLookup dictContains
  rw [Option.map_eq_none', List.find?_eq_none, ← Bool.not_eq_true, List.any_eq_true]
  simp only [beq_iff_eq, not_exists, not_and, Prod.forall]

theorem dictLookup_isSome_of_contains {α : Type} {d : List (String × α)} {c : String}
    (h : dictContains d c = true) : ∃ v, dictLookup d c = some v := by
  cases hv : dictLookup d c with
  | none => rw [dictLookup_eq_none_iff] at hv; rw [h] at hv; cases hv
  | some v => exact ⟨v, rfl⟩

theorem dictLookup_append_single_self {α : Type} {d : List (String × α)} {k : String}
    (h : dictContains d k = false) (v : α) :
    dictLookup (d ++ [(k, v)]) k = some v := by
  unfold dictLookup
  rw [List.find?_append]
  have hd : d.find? (fun p => p.1 == k) = none := by
    rw [List.find?_eq_none]
    intro p hp hb
    have : dictContains d k = true := by
      unfold dictContains; rw [List.any_eq_true]; exact ⟨p, hp, hb⟩
    rw [h] at this; cases this
  rw [hd]
  simp

theorem dictLookup_append_single_other {α : Type} (d : List (String × α))
    {c k : String} (hne : c ≠ k) (v : α) :
    dictLookup (d ++ [(k, v)]) c = dictLookup d c := by
  unfold dictLookup
  rw [List.find?_append]
  cases hf : d.find? (fun p => p.1 == c) with
  | none =>
    simp only [Option.or]
    have : ((k, v).1 == c) = false := by
      simp only [beq_eq_false_iff_ne]
      exact fun hx => hne hx.symm
    simp [List.find?, this]
  | some p => simp

/-! ## Extractor lemmas -/

namespace Scrapper

theorem foldl_processLink (links : List Anchor) : ∀ acc : List PyStr,
    links.foldl processLink acc =
      dedupAux acc ((links.map
        (fun a => pyStrip (removeMailto (a.href.getD [])))).filter
        (fun e => !e.isEmpty)) := by
  induction links with
  | nil => intro acc; rfl
  | cons a t ih =>
    intro acc
    rw [List.foldl_cons, List.map_cons, List.filter_cons]
    by_cases h1 : (pyStrip (removeMailto (a.href.getD []))).isEmpty
    · simp [processLink, h1, ih]
    · by_cases h2 : acc.contains (pyStrip (removeMailto (a.href.getD [])))
      · simp [processLink, h1, h2, dedupAux, ih]
        split <;> rfl
      · simp [processLink, h1, h2, dedupAux, ih]
        split <;> rfl

/-- The list built by the extractor's loop is `codeEmails`. -/
theorem extract_loop_eq_codeEmails (anchors : List Anchor) :
    (anchors.filter hrefIsMailto).foldl processLink [] = codeEmails anchors := by
  rw [foldl_processLink]
  rfl

theorem scrape_all_contains_mono (fetch : String → FetchResult) :
    ∀ (cs : List Country) (data : EmbassyData) (k : String),
    dictContains data k = true → dictContains (scrape_all fetch data cs).1 k = true := by
  intro cs
  induction cs with
  | nil => intro data k h; exact h
  | cons c t ih =>
    intro data k h
    show dictContains (scrape_all fetch (scrape_country fetch data c).1 t).1 k = true
    apply ih
    unfold scrape_country
    cases fetch c.url with
    | ok doc => exact dictContains_insert_mono h _ _
    | err m => exact dictContains_insert_mono h _ _

end Scrapper

/-! ## Send-loop step lemmas -/

namespace Service

theorem step_skip (bs : Nat) (so : String → String → Bool) (ts : Nat → String)
    (n : Nat) (log : SendLog) (c : String) (info : Info) (rest : ServiceData)
    (h : dictContains log c = true) :
    process_loop bs so ts n log ((c, info) :: rest) =
      process_loop bs so ts (n + 1) log rest := by
  simp [process_loop, h]

theorem step_warn (bs : Nat) (so : String → String → Bool) (ts : Nat → String)
    (n : Nat) (log : SendLog) (c : String) (info : Info) (rest : ServiceData)
    (h : dictContains log c = false) (hne : hasEmails info = false) :
    process_loop bs so ts n log ((c, info) :: rest) =
      ((process_loop bs so ts (n + 1) log rest).1,
        Event.warn c :: (process_loop bs so ts (n + 1) log rest).2) := by
  cases info with
  | notFound m => simp [process_loop, h]
  | found es =>
    cases es with
    | nil => simp [process_loop, h]
    | cons e es2 => simp [hasEmails] at hne

theorem step_sent (bs : Nat) (so : String → String → Bool) (ts : Nat → String)
    (n : Nat) (log : SendLog) (c e : String) (es : List String)
    (rest : ServiceData) (h : dictContains log c = false) (hok : so e c = true) :
    process_loop bs so ts n log ((c, .found (e :: es)) :: rest) =
      ((process_loop bs so ts (n + 1) (log ++ [(c, ⟨e, ts (n + 1), "sent"⟩)]) rest).1,
        Event.send e c :: Event.save (log ++ [(c, ⟨e, ts (n + 1), "sent"⟩)]) ::
          Event.sleep 60 ::
          ((if (n + 1) % bs == 0 then [Event.sleep 3600] else []) ++
            (process_loop bs so ts (n + 1) (log ++ [(c, ⟨e, ts (n + 1), "sent"⟩)]) rest).2)) := by
  have hins := dictInsert_of_not_contains h (LogEntry.mk e (ts (n + 1)) "sent")
  simp only [process_loop, h, Bool.false_eq_true, if_false, hok, if_true, hins]
  by_cases hb : (n + 1) % bs == 0 <;> simp [hb]

theorem step_failed (bs : Nat) (so : String → String → Bool) (ts : Nat → String)
    (n : Nat) (log : SendLog) (c e : String) (es : List String)
    (rest : ServiceData) (h : dictContains log c = false) (hfail : so e c = false) :
    process_loop bs so ts n log ((c, .found (e :: es)) :: rest) =
      ((process_loop bs so ts (n + 1) log rest).1,
        Event.send e c ::
          ((if (n + 1) % bs == 0 then [Event.sleep 3600] else []) ++
            (process_loop bs so ts (n + 1) log rest).2)) := by
  simp only [process_loop, h, Bool.false_eq_true, if_false, hfail]
  by_cases hb : (n + 1) % bs == 0 <;> simp [hb]

end Service

/-! ## Run-level lemmas for the send loop -/

theorem dictContains_append_left {α : Type} {d : List (String × α)} {k : String}
    (h : dictContains d k = true) (l : List (String × α)) :
    dictContains (d ++ l) k = true := by
  unfold dictContains at *
  rw [List.any_append, h, Bool.true_or]

theorem dictContains_append_single {α : Type} (d : List (String × α))
    (k2 k : String) (v : α) :
    dictContains (d ++ [(k2, v)]) k = (dictContains d k || (k2 == k)) := by
  unfold dictContains
  rw [List.any_append]
  simp

namespace Service

theorem sends_cons_warn (c : String) (t : List Event) :
    sends (Event.warn c :: t) = sends t := rfl

theorem covered_run (bs : Nat) (so : String → String → Bool) (ts : Nat → String) :
    ∀ (data : ServiceData) (n : Nat) (log : SendLog),
      coveredBy log data = true →
      (process_loop bs so ts n log data).1 = log ∧
        sends (process_loop bs so ts n log data).2 = [] := by
  intro data
  induction data with
  | nil => intro n log _; exact ⟨rfl, rfl⟩
  | cons ci rest ih =>
    intro n log h
    obtain ⟨c, info⟩ := ci
    unfold coveredBy at h
    rw [List.all_cons, Bool.and_eq_true] at h
    obtain ⟨h1, h2⟩ := h
    by_cases hc : dictContains log c
    · rw [step_skip bs so ts n log c info rest hc]
      exact ih (n + 1) log h2
    · have hcf : dictContains log c = false := by simpa using hc
      have hne : hasEmails info = false := by
        rw [hcf, Bool.or_false] at h1
        simpa using h1
      rw [step_warn bs so ts n log c info rest hcf hne]
      obtain ⟨ih1, ih2⟩ := ih (n + 1) log h2
      exact ⟨ih1, by rw [sends_cons_warn, ih2]⟩

theorem run_contains_mono (bs : Nat) (so : String → String → Bool)
    (ts : Nat → String) :
    ∀ (data : ServiceData) (n : Nat) (log : SendLog) (k : String),
      dictContains log k = true →
      dictContains (process_loop bs so ts n log data).1 k = true := by
  intro data
  induction data with
  | nil => intro n log k h; exact h
  | cons ci rest ih =>
    intro n log k h
    obtain ⟨c, info⟩ := ci
    by_cases hc : dictContains log c
    · rw [step_skip bs so ts n log c info rest hc]
      exact ih _ _ _ h
    · have hcf : dictContains log c = false := by simpa using hc
      cases info with
      | notFound m =>
        rw [step_warn bs so ts n log c (.notFound m) rest hcf rfl]
        exact ih _ _ _ h
      | found es =>
        cases es with
        | nil =>
          rw [step_warn bs so ts n log c (.found []) rest hcf rfl]
          exact ih _ _ _ h
        | cons e es2 =>
          by_cases hok : so e c
          · rw [step_sent bs so ts n log c e es2 rest hcf hok]
            exact ih _ _ _ (dictContains_append_left h _)
          · have hokf : so e c = false := by simpa using hok
            rw [step_failed bs so ts n log c e es2 rest hcf hokf]
            exact ih _ _ _ h

theorem run_complete (bs : Nat) (so : String → String → Bool) (ts : Nat → String)
    (hso : ∀ e c, so e c = true) :
    ∀ (data : ServiceData) (n : Nat) (log : SendLog),
      coveredBy (process_loop bs so ts n log data).1 data = true := by
  intro data
  induction data with
  | nil => intro n log; rfl
  | cons ci rest ih =>
    intro n log
    obtain ⟨c, info⟩ := ci
    by_cases hc : dictContains log c
    · rw [step_skip bs so ts n log c info rest hc]
      unfold coveredBy
      rw [List.all_cons, Bool.and_eq_true]
      refine ⟨?_, ih (n + 1) log⟩
      rw [run_contains_mono bs so ts rest (n + 1) log c hc, Bool.or_true]
    · have hcf : dictContains log c = false := by simpa using hc
      cases info with
      | notFound m =>
        rw [step_warn bs so ts n log c (.notFound m) rest hcf rfl]
        unfold coveredBy
        rw [List.all_cons, Bool.and_eq_true]
        exact ⟨rfl, ih (n + 1) log⟩
      | found es =>
        cases es with
        | nil =>
          rw [step_warn bs so ts n log c (.found []) rest hcf rfl]
          unfold coveredBy
          rw [List.all_cons, Bool.and_eq_true]
          exact ⟨rfl, ih (n + 1) log⟩
        | cons e es2 =>
          rw [step_sent bs so ts n log c e es2 rest hcf (hso e c)]
          unfold coveredBy
          rw [List.all_cons, Bool.and_eq_true]
          refine ⟨?_, ih (n + 1) _⟩
          have hself : dictContains (log ++ [(c, LogEntry.mk e (ts (n + 1)) "sent")]) c = true := by
            rw [dictContains_append_single]
            simp
          rw [run_contains_mono bs so ts rest (n + 1) _ c hself, Bool.or_true]

theorem run_lookup_mono (bs : Nat) (so : String → String → Bool)
    (ts : Nat → String) :
    ∀ (data : ServiceData) (n : Nat) (log : SendLog) (k : String) (v : LogEntry),
      dictLookup log k = some v →
      dictLookup (process_loop bs so ts n log data).1 k = some v := by
  intro data
  induction data with
  | nil => intro n log k v h; exact h
  | cons ci rest ih =>
    intro n log k v h
    obtain ⟨c, info⟩ := ci
    by_cases hc : dictContains log c
    · rw [step_skip bs so ts n log c info rest hc]
      exact ih _ _ _ _ h
    · have hcf : dictContains log c = false := by simpa using hc
      cases info with
      | notFound m =>
        rw [step_warn bs so ts n log c (.notFound m) rest hcf rfl]
        exact ih _ _ _ _ h
      | found es =>
        cases es with
        | nil =>
          rw [step_warn bs so ts n log c (.found []) rest hcf rfl]
          exact ih _ _ _ _ h
        | cons e es2 =>
          by_cases hok : so e c
          · rw [step_sent bs so ts n log c e es2 rest hcf hok]
            exact ih _ _ _ _ (dictLookup_append_of_some h _)
          · have hokf : so e c = false := by simpa using hok
            rw [step_failed bs so ts n log c e es2 rest hcf hokf]
            exact ih _ _ _ _ h

end Service

namespace Service

theorem run_keys_nodup (bs : Nat) (so : String → String → Bool)
    (ts : Nat → String) :
    ∀ (data : ServiceData) (n : Nat) (log : SendLog),
      (log.map Prod.fst).Nodup →
      ((process_loop bs so ts n log data).1.map Prod.fst).Nodup := by
  intro data
  induction data with
  | nil => intro n log h; exact h
  | cons ci rest ih =>
    intro n log h
    obtain ⟨c, info⟩ := ci
    by_cases hc : dictContains log c
    · rw [step_skip bs so ts n log c info rest hc]
      exact ih _ _ h
    · have hcf : dictContains log c = false := by simpa using hc
      cases info with
      | notFound m =>
        rw [step_warn bs so ts n log c (.notFound m) rest hcf rfl]
        exact ih _ _ h
      | found es =>
        cases es with
        | nil =>
          rw [step_warn bs so ts n log c (.found []) rest hcf rfl]
          exact ih _ _ h
        | cons e es2 =>
          by_cases hok : so e c
          · rw [step_sent bs so ts n log c e es2 rest hcf hok]
            apply ih
            rw [List.map_append, List.nodup_append]
            refine ⟨h, List.nodup_singleton c, ?_⟩
            intro a ha hb
            rw [List.map_singleton, List.mem_singleton] at hb
            subst hb
            have : dictContains log a = true := (dictContains_eq_mem log a).mpr ha
            rw [hcf] at this
            cases this
          · have hokf : so e c = false := by simpa using hok
            rw [step_failed bs so ts n log c e es2 rest hcf hokf]
            exact ih _ _ h

theorem run_fresh (bs : Nat) (so : String → String → Bool) (ts : Nat → String) :
    ∀ (data : ServiceData) (n : Nat) (log : SendLog) (k : String),
      dictContains log k = false → k ∉ data.map Prod.fst →
      dictContains (process_loop bs so ts n log data).1 k = false := by
  intro data
  induction data with
  | nil => intro n log k h _; exact h
  | cons ci rest ih =>
    intro n log k h hk
    obtain ⟨c, info⟩ := ci
    rw [List.map_cons, List.mem_cons] at hk
    push_neg at hk
    obtain ⟨hkc, hkrest⟩ := hk
    by_cases hc : dictContains log c
    · rw [step_skip bs so ts n log c info rest hc]
      exact ih _ _ _ h hkrest
    · have hcf : dictContains log c = false := by simpa using hc
      cases info with
      | notFound m =>
        rw [step_warn bs so ts n log c (.notFound m) rest hcf rfl]
        exact ih _ _ _ h hkrest
      | found es =>
        cases es with
        | nil =>
          rw [step_warn bs so ts n log c (.found []) rest hcf rfl]
          exact ih _ _ _ h hkrest
        | cons e es2 =>
          by_cases hok : so e c
          · rw [step_sent bs so ts n log c e es2 rest hcf hok]
            apply ih
            · rw [dictContains_append_single, h, Bool.false_or]
              simp only [beq_eq_false_iff_ne]
              exact fun hx => hkc hx.symm
            · exact hkrest
          · have hokf : so e c = false := by simpa using hok
            rw [step_failed bs so ts n log c e es2 rest hcf hokf]
            exact ih _ _ _ h hkrest

theorem run_new_entries (bs : Nat) (so : String → String → Bool)
    (ts : Nat → String) :
    ∀ (data : ServiceData) (n : Nat) (log : SendLog) (k : String) (v : LogEntry),
      dictLookup log k = none →
      dictLookup (process_loop bs so ts n log data).1 k = some v →
      k ∈ data.map Prod.fst ∧ so v.email k = true ∧ v.status = "sent" ∧
        Event.send v.email k ∈ (process_loop bs so ts n log data).2 := by
  intro data
  induction data with
  | nil =>
    intro n log k v h hv
    rw [show (process_loop bs so ts n log []) = (log, []) from rfl] at hv
    rw [h] at hv
    cases hv
  | cons ci rest ih =>
    intro n log k v h hv
    obtain ⟨c, info⟩ := ci
    by_cases hc : dictContains log c
    · rw [step_skip bs so ts n log c info rest hc] at hv ⊢
      obtain ⟨m1, m2, m3, m4⟩ := ih _ _ _ _ h hv
      exact ⟨List.mem_cons_of_mem _ m1, m2, m3, m4⟩
    · have hcf : dictContains log c = false := by simpa using hc
      cases info with
      | notFound m =>
        rw [step_warn bs so ts n log c (.notFound m) rest hcf rfl] at hv ⊢
        obtain ⟨m1, m2, m3, m4⟩ := ih _ _ _ _ h hv
        exact ⟨List.mem_cons_of_mem _ m1, m2, m3, List.mem_cons_of_mem _ m4⟩
      | found es =>
        cases es with
        | nil =>
          rw [step_warn bs so ts n log c (.found []) rest hcf rfl] at hv ⊢
          obtain ⟨m1, m2, m3, m4⟩ := ih _ _ _ _ h hv
          exact ⟨List.mem_cons_of_mem _ m1, m2, m3, List.mem_cons_of_mem _ m4⟩
        | cons e es2 =>
          by_cases hok : so e c
          · rw [step_sent bs so ts n log c e es2 rest hcf hok] at hv ⊢
            by_cases hkc : k = c
            · subst hkc
              have hself : dictLookup (log ++ [(k, LogEntry.mk e (ts (n + 1)) "sent")]) k =
                  some (LogEntry.mk e (ts (n + 1)) "sent") :=
                dictLookup_append_single_self hcf _
              have hfin := run_lookup_mono bs so ts rest (n + 1) _ k _ hself
              rw [hfin] at hv
              obtain rfl := (Option.some.injEq _ _).mp hv.symm
              refine ⟨List.mem_cons_self _ _, hok, rfl, ?_⟩
              exact List.mem_cons_self _ _
            · have hnone : dictLookup (log ++ [(c, LogEntry.mk e (ts (n + 1)) "sent")]) k = none := by
                rw [dictLookup_append_single_other log hkc]
                exact h
              obtain ⟨m1, m2, m3, m4⟩ := ih _ _ _ _ hnone hv
              refine ⟨List.mem_cons_of_mem _ m1, m2, m3, ?_⟩
              apply List.mem_cons_of_mem
              apply List.mem_cons_of_mem
              apply List.mem_cons_of_mem
              exact List.mem_append_right _ m4
          · have hokf : so e c = false := by simpa using hok
            rw [step_failed bs so ts n log c e es2 rest hcf hokf] at hv ⊢
            obtain ⟨m1, m2, m3, m4⟩ := ih _ _ _ _ h hv
            refine ⟨List.mem_cons_of_mem _ m1, m2, m3, ?_⟩
            apply List.mem_cons_of_mem
            exact List.mem_append_right _ m4

end Service

namespace Service

theorem countLong_nil : countLong [] = 0 := rfl

theorem countLong_send (e c : String) (t : List Event) :
    countLong (Event.send e c :: t) = countLong t := rfl

theorem countLong_save (lg : SendLog) (t : List Event) :
    countLong (Event.save lg :: t) = countLong t := rfl

theorem countLong_warn (c : String) (t : List Event) :
    countLong (Event.warn c :: t) = countLong t := rfl

theorem countLong_sleep60 (t : List Event) :
    countLong (Event.sleep 60 :: t) = countLong t := rfl

theorem countLong_sleep3600 (t : List Event) :
    countLong (Event.sleep 3600 :: t) = countLong t + 1 := rfl

theorem countLong_append (s t : List Event) :
    countLong (s ++ t) = countLong s + countLong t := by
  simp [countLong, List.filter_append]

/-- C7, amended: the number of long (3600-unit) pauses in a send run equals
the number of countries that both fall on a batch boundary
(`processed % batch_size == 0`) **and** got past the two skip checks (were
sent, or failed) — every country increments the `processed` counter, but the
`continue` of a skipped country bypasses the bottom-of-loop pause check, so a
boundary landing on a skipped country produces no pause. (For fidelity note:
Python raises `ZeroDivisionError` for `batch_size = 0`; the program always
calls with `batch_size = 10`.) -/
theorem run_countLong (bs : Nat) (so : String → String → Bool) (ts : Nat → String) :
    ∀ (data : ServiceData) (n : Nat) (log : SendLog),
      countLong (process_loop bs so ts n log data).2 =
        boundaryCount bs n (runStatuses so ts n log data) := by
  intro data
  induction data with
  | nil => intro n log; rfl
  | cons ci rest ih =>
    intro n log
    obtain ⟨c, info⟩ := ci
    by_cases hc : dictContains log c
    · rw [step_skip bs so ts n log c info rest hc]
      simp [runStatuses, hc, boundaryCount, attempted]
      exact ih _ _
    · have hcf : dictContains log c = false := by simpa using hc
      cases info with
      | notFound m =>
        rw [step_warn bs so ts n log c (.notFound m) rest hcf rfl]
        simp [runStatuses, hcf, boundaryCount, attempted, countLong_warn]
        exact ih _ _
      | found es =>
        cases es with
        | nil =>
          rw [step_warn bs so ts n log c (.found []) rest hcf rfl]
          simp [runStatuses, hcf, boundaryCount, attempted, countLong_warn]
          exact ih _ _
        | cons e es2 =>
          by_cases hok : so e c
          · rw [step_sent bs so ts n log c e es2 rest hcf hok]
            have hins := dictInsert_of_not_contains hcf (LogEntry.mk e (ts (n + 1)) "sent")
            simp only [runStatuses, hcf, Bool.false_eq_true, if_false, hok, if_true,
              hins, boundaryCount, attempted, Bool.and_true, countLong_send,
              countLong_save, countLong_sleep60]
            by_cases hb : (n + 1) % bs == 0
            · rw [if_pos hb, if_pos hb, countLong_append, countLong_sleep3600,
                countLong_nil, ih]
            · rw [if_neg hb, if_neg hb, countLong_append, countLong_nil, ih]
          · have hokf : so e c = false := by simpa using hok
            rw [step_failed bs so ts n log c e es2 rest hcf hokf]
            simp only [runStatuses, hcf, Bool.false_eq_true, if_false, hokf,
              boundaryCount, attempted, Bool.and_true, countLong_send]
            by_cases hb : (n + 1) % bs == 0
            · rw [if_pos hb, if_pos hb, countLong_append, countLong_sleep3600,
                countLong_nil, ih]
            · rw [if_neg hb, if_neg hb, countLong_append, countLong_nil, ih]

end Service

/-! ## Claim theorems: the scrapper (C2, C6, C8) -/

namespace Scrapper

/-- C2, counterexample: the claim says that for a contact container with at
least one `mailto:` anchor, the extractor returns `Found` of exactly the
addresses obtained by stripping the `mailto:` scheme from the front of each
link and trimming whitespace, deduplicated in first-seen order. On the page
whose container holds the anchors `href="mailto:"` and
`href="mailto:mailto:a@b"` that sequence is `["", "mailto:a@b"]`, but the code
removes every occurrence of `"mailto:"` (Python `str.replace`) and silently
drops addresses that become empty, returning `Found ["a@b"]` instead. -/
theorem extract_spec_strip_counterexample :
    (Doc.mk (some [Anchor.mk (some "mailto:".data),
        Anchor.mk (some "mailto:mailto:a@b".data)])).contactDiv =
      some [Anchor.mk (some "mailto:".data),
        Anchor.mk (some "mailto:mailto:a@b".data)] ∧
    ([Anchor.mk (some "mailto:".data),
        Anchor.mk (some "mailto:mailto:a@b".data)].filter hrefIsMailto) ≠ [] ∧
    specEmails [Anchor.mk (some "mailto:".data),
        Anchor.mk (some "mailto:mailto:a@b".data)] = [[], "mailto:a@b".data] ∧
    extract_embassy_emails (Doc.mk (some [Anchor.mk (some "mailto:".data),
        Anchor.mk (some "mailto:mailto:a@b".data)])) ≠
      .Found (specEmails [Anchor.mk (some "mailto:".data),
        Anchor.mk (some "mailto:mailto:a@b".data)]) := by
  decide

/-- C2, amended: for every detail page whose contact container yields at least
one non-empty collected address, the extractor returns `Found` of exactly the
addresses obtained by removing every occurrence of `mailto:` from each
mailto-anchor's link and trimming whitespace, dropping addresses that become
empty, deduplicated preserving first-seen order (`codeEmails`). -/
theorem extract_found_codeEmails (doc : Doc) (anchors : List Anchor)
    (h : doc.contactDiv = some anchors) (hne : codeEmails anchors ≠ []) :
    extract_embassy_emails doc = .Found (codeEmails anchors) := by
  simp only [extract_embassy_emails, h]
  rw [extract_loop_eq_codeEmails]
  cases hh : codeEmails anchors with
  | nil => exact absurd hh hne
  | cons x xs => simp

/-- Witness for the amended C2 at a concrete page. -/
theorem extract_found_codeEmails_witness :
    extract_embassy_emails (Doc.mk (some [Anchor.mk (some "mailto:visa@ex.org".data)])) =
      .Found (codeEmails [Anchor.mk (some "mailto:visa@ex.org".data)]) :=
  extract_found_codeEmails _ _ rfl (by decide)

/-- C6, counterexample: the claim says `NotFound "No embassy emails found"` is
returned exactly when the container has zero `mailto:` links, and that in all
other cases the extractor returns `Found`. A container holding the single
anchor `href="mailto:"` has one `mailto:` link, yet its address strips to the
empty string, is dropped, and the extractor still returns
`NotFound "No embassy emails found"`. -/
theorem extract_notfound_counterexample :
    ([Anchor.mk (some "mailto:".data)].filter hrefIsMailto) ≠ [] ∧
    extract_embassy_emails (Doc.mk (some [Anchor.mk (some "mailto:".data)])) =
      .NotFound "No embassy emails found" := by
  decide

/-- C6, amended: the extractor returns `NotFound` exactly in two cases — no
contact container (error `"Contact section not found"`, regardless of other
page content), or a container whose mailto anchors yield no non-empty
collected address, in particular one with zero mailto links (error
`"No embassy emails found"`); in all other cases it returns `Found`. -/
theorem extract_notfound_characterization (doc : Doc) :
    (doc.contactDiv = none →
      extract_embassy_emails doc = .NotFound "Contact section not found") ∧
    (∀ anchors, doc.contactDiv = some anchors → codeEmails anchors = [] →
      extract_embassy_emails doc = .NotFound "No embassy emails found") ∧
    (∀ anchors, doc.contactDiv = some anchors → codeEmails anchors ≠ [] →
      ∃ l, extract_embassy_emails doc = .Found l) := by
  refine ⟨?_, ?_, ?_⟩
  · intro h
    simp [extract_embassy_emails, h]
  · intro anchors h hh
    simp only [extract_embassy_emails, h]
    rw [extract_loop_eq_codeEmails, hh]
    rfl
  · intro anchors h hne
    refine ⟨codeEmails anchors, ?_⟩
    simp only [extract_embassy_emails, h]
    rw [extract_loop_eq_codeEmails]
    cases hh : codeEmails anchors with
    | nil => exact absurd hh hne
    | cons x xs => simp

/-- Witness for the amended C6 at a concrete page with no contact container. -/
theorem extract_notfound_characterization_witness :
    extract_embassy_emails (Doc.mk none) = .NotFound "Contact section not found" :=
  (extract_notfound_characterization (Doc.mk none)).1 rfl

/-- C8, counterexample: the claim says a fixed delay of 2 time units elapses
between consecutive countries regardless of whether the fetch succeeded or
failed. `time.sleep(2)` sits inside the `try` block after the fetch, so a
fetch exception jumps to `except` and skips it: scraping two countries whose
fetches both fail stores `NotFound` for each, yet the run's event trace is
empty — no delay at all between finishing the first and starting the second. -/
theorem scrape_sleep_counterexample :
    scrape_all (fun _ => FetchResult.err "connection error") []
        [Country.mk "Atlantis" "u1", Country.mk "Borduria" "u2"] =
      ([("Atlantis", EmailResult.NotFound "connection error"),
        ("Borduria", EmailResult.NotFound "connection error")], []) := by
  decide

theorem scrape_all_mem (fetch : String → FetchResult) :
    ∀ (cs : List Country) (d : EmbassyData) (c2 : Country), c2 ∈ cs →
      dictContains (scrape_all fetch d cs).1 c2.name = true := by
  intro cs
  induction cs with
  | nil => intro d c2 h; cases h
  | cons c t ih =>
    intro d c2 h
    rw [List.mem_cons] at h
    cases h with
    | inl he =>
      subst he
      show dictContains (scrape_all fetch (scrape_country fetch d c2).1 t).1 c2.name = true
      apply scrape_all_contains_mono
      unfold scrape_country
      cases fetch c2.url with
      | ok doc => exact dictContains_insert_self d c2.name _
      | err m => exact dictContains_insert_self d c2.name _
    | inr ht =>
      exact ih _ _ ht

/-- C8, amended: on a successful fetch the country's step stores the
extractor's result and ends with the fixed 2-unit delay; on a fetch failure
the step stores `NotFound` with the exception message and takes **no** delay;
in both cases the run continues, and every country of the list ends up with an
entry in the final mapping. -/
theorem scrape_country_delay (fetch : String → FetchResult) (data : EmbassyData)
    (c : Country) :
    (∀ doc, fetch c.url = .ok doc →
      scrape_country fetch data c =
        (dictInsert data c.name (extract_embassy_emails doc), [SEvent.sleep 2])) ∧
    (∀ m, fetch c.url = .err m →
      scrape_country fetch data c = (dictInsert data c.name (.NotFound m), [])) ∧
    (∀ (cs : List Country) (d : EmbassyData) (c2 : Country), c2 ∈ cs →
      dictContains (scrape_all fetch d cs).1 c2.name = true) := by
  refine ⟨?_, ?_, scrape_all_mem fetch⟩
  · intro doc h
    unfold scrape_country
    rw [h]
  · intro m h
    unfold scrape_country
    rw [h]

/-- Witness for the amended C8 at a concrete fetch outcome. -/
theorem scrape_country_delay_witness :
    scrape_country (fun _ => FetchResult.ok (Doc.mk none)) []
        (Country.mk "Avalon" "u") =
      (dictInsert [] "Avalon" (extract_embassy_emails (Doc.mk none)),
        [SEvent.sleep 2]) :=
  (scrape_country_delay (fun _ => FetchResult.ok (Doc.mk none)) []
    (Country.mk "Avalon" "u")).1 (Doc.mk none) rfl

end Scrapper

/-! ## Claim theorems: the send orchestrator (C1, C3, C4, C5, C7, C9, C10) -/

namespace Service

/-- C1: against a scrape artifact each of whose countries with a non-empty
email list already has a Send Log entry, `process_embassies` sends zero emails
and returns the loaded Send Log unchanged; and, for the "second run" case,
when every transport call succeeds, re-running the loop against the Send Log
produced by a first complete run sends zero additional emails and leaves that
log unchanged. -/
theorem process_embassies_idempotent (bs : Nat) (so : String → String → Bool)
    (ts : Nat → String) (df : FileState ServiceData) (lf : FileState SendLog) :
    (coveredBy (load_sent_log lf) (load_embassy_data df) = true →
      (process_embassies bs so ts df lf).1 = load_sent_log lf ∧
        sends (process_embassies bs so ts df lf).2 = []) ∧
    ((∀ e c, so e c = true) →
      (process_loop bs so ts 0 (process_embassies bs so ts df lf).1
          (load_embassy_data df)).1 = (process_embassies bs so ts df lf).1 ∧
        sends (process_loop bs so ts 0 (process_embassies bs so ts df lf).1
          (load_embassy_data df)).2 = []) := by
  constructor
  · intro h
    exact covered_run bs so ts (load_embassy_data df) 0 (load_sent_log lf) h
  · intro hso
    exact covered_run bs so ts (load_embassy_data df) 0 _
      (run_complete bs so ts hso (load_embassy_data df) 0 (load_sent_log lf))

/-- Witness for C1 at a concrete artifact and Send Log. -/
theorem process_embassies_idempotent_witness :
    (process_embassies 10 (fun _ _ => true) (fun _ => "t1")
        (FileState.present (Except.ok [("France", Info.found ["visa@fr.example"]),
          ("Spain", Info.notFound "No embassy emails found")]))
        (FileState.present (Except.ok
          [("France", LogEntry.mk "visa@fr.example" "t0" "sent")]))).1 =
      load_sent_log (FileState.present (Except.ok
        [("France", LogEntry.mk "visa@fr.example" "t0" "sent")])) ∧
    sends (process_embassies 10 (fun _ _ => true) (fun _ => "t1")
        (FileState.present (Except.ok [("France", Info.found ["visa@fr.example"]),
          ("Spain", Info.notFound "No embassy emails found")]))
        (FileState.present (Except.ok
          [("France", LogEntry.mk "visa@fr.example" "t0" "sent")]))).2 = [] :=
  (process_embassies_idempotent 10 (fun _ _ => true) (fun _ => "t1")
    (FileState.present (Except.ok [("France", Info.found ["visa@fr.example"]),
      ("Spain", Info.notFound "No embassy emails found")]))
    (FileState.present (Except.ok
      [("France", LogEntry.mk "visa@fr.example" "t0" "sent")]))).1 (by decide)

/-- C3: for a country absent from the Send Log whose scrape result holds at
least one email, and whose transport call succeeds, the loop performs exactly
one `send_email` call, addressed to the **first** email of the list (the tail
`es` is never used), appends the entry
`{email := e, sent_date := ts (n+1), status := "sent"}` for that country, and
emits the `save` of the grown log immediately — before any event of the
remaining countries; the step's transmissions are exactly that one send. -/
theorem process_loop_sends_first_email (bs : Nat) (so : String → String → Bool)
    (ts : Nat → String) (n : Nat) (log : SendLog) (c e : String)
    (es : List String) (rest : ServiceData)
    (h : dictContains log c = false) (hok : so e c = true) :
    process_loop bs so ts n log ((c, .found (e :: es)) :: rest) =
      ((process_loop bs so ts (n + 1) (log ++ [(c, ⟨e, ts (n + 1), "sent"⟩)]) rest).1,
        Event.send e c :: Event.save (log ++ [(c, ⟨e, ts (n + 1), "sent"⟩)]) ::
          Event.sleep 60 ::
          ((if (n + 1) % bs == 0 then [Event.sleep 3600] else []) ++
            (process_loop bs so ts (n + 1) (log ++ [(c, ⟨e, ts (n + 1), "sent"⟩)]) rest).2)) ∧
    sends (process_loop bs so ts n log ((c, .found (e :: es)) :: rest)).2 =
      Event.send e c ::
        sends (process_loop bs so ts (n + 1)
          (log ++ [(c, ⟨e, ts (n + 1), "sent"⟩)]) rest).2 := by
  have hstep := step_sent bs so ts n log c e es rest h hok
  refine ⟨hstep, ?_⟩
  rw [hstep]
  by_cases hb : (n + 1) % bs == 0
  · rw [if_pos hb]
    simp [sends, isSend, List.filter_append]
  · rw [if_neg hb]
    simp [sends, isSend, List.filter_append]

/-- Witness for C3 at the spec's Freedonia example (with a second email in the
list, to which nothing is ever sent). -/
theorem process_loop_sends_first_email_witness :
    process_loop 10 (fun _ _ => true) (fun _ => "2025-01-01") 0 []
        [("Freedonia", .found ["visa@freedonia.gov", "other@freedonia.gov"])] =
      ((process_loop 10 (fun _ _ => true) (fun _ => "2025-01-01") 1
          [("Freedonia", ⟨"visa@freedonia.gov", "2025-01-01", "sent"⟩)] []).1,
        Event.send "visa@freedonia.gov" "Freedonia" ::
          Event.save [("Freedonia", ⟨"visa@freedonia.gov", "2025-01-01", "sent"⟩)] ::
          Event.sleep 60 ::
          ((if 1 % 10 == 0 then [Event.sleep 3600] else []) ++
            (process_loop 10 (fun _ _ => true) (fun _ => "2025-01-01") 1
              [("Freedonia", ⟨"visa@freedonia.gov", "2025-01-01", "sent"⟩)] []).2)) :=
  (process_loop_sends_first_email 10 (fun _ _ => true) (fun _ => "2025-01-01") 0 []
    "Freedonia" "visa@freedonia.gov" ["other@freedonia.gov"] [] rfl rfl).1

/-- C4: for a country absent from the Send Log whose transport call fails, the
loop records the attempted transmission but creates no Send Log entry and
emits no `save`; it continues with the remaining countries using the unchanged
log, and — provided the country does not occur again in the remaining data —
the country is still absent from the final log, so a later run will retry it. -/
theorem process_loop_send_failed (bs : Nat) (so : String → String → Bool)
    (ts : Nat → String) (n : Nat) (log : SendLog) (c e : String)
    (es : List String) (rest : ServiceData)
    (h : dictContains log c = false) (hfail : so e c = false) :
    process_loop bs so ts n log ((c, .found (e :: es)) :: rest) =
      ((process_loop bs so ts (n + 1) log rest).1,
        Event.send e c ::
          ((if (n + 1) % bs == 0 then [Event.sleep 3600] else []) ++
            (process_loop bs so ts (n + 1) log rest).2)) ∧
    (c ∉ rest.map Prod.fst →
      dictContains (process_loop bs so ts n log
        ((c, .found (e :: es)) :: rest)).1 c = false) := by
  have hstep := step_failed bs so ts n log c e es rest h hfail
  refine ⟨hstep, ?_⟩
  intro hk
  rw [hstep]
  exact run_fresh bs so ts rest (n + 1) log c h hk

/-- Witness for C4 at a concrete failing transport. -/
theorem process_loop_send_failed_witness :
    dictContains (process_loop 10 (fun _ _ => false) (fun _ => "t1") 0 []
        [("Freedonia", .found ["visa@freedonia.gov"])]).1 "Freedonia" = false :=
  (process_loop_send_failed 10 (fun _ _ => false) (fun _ => "t1") 0 []
    "Freedonia" "visa@freedonia.gov" [] [] rfl rfl).2 (by decide)

/-- C5: for a country absent from the Send Log whose scrape result is the
error marker or an empty email list, the loop performs zero transmissions for
it, emits exactly the "No email found" warning, and passes the Send Log on
unchanged. -/
theorem process_loop_no_email_skip (bs : Nat) (so : String → String → Bool)
    (ts : Nat → String) (n : Nat) (log : SendLog) (c : String) (info : Info)
    (rest : ServiceData)
    (h : dictContains log c = false) (hne : hasEmails info = false) :
    process_loop bs so ts n log ((c, info) :: rest) =
      ((process_loop bs so ts (n + 1) log rest).1,
        Event.warn c :: (process_loop bs so ts (n + 1) log rest).2) ∧
    sends (process_loop bs so ts n log ((c, info) :: rest)).2 =
      sends (process_loop bs so ts (n + 1) log rest).2 := by
  have hstep := step_warn bs so ts n log c info rest h hne
  exact ⟨hstep, by rw [hstep]; rfl⟩

/-- Witness for C5 at the spec's Ruritania example. -/
theorem process_loop_no_email_skip_witness :
    process_loop 10 (fun _ _ => true) (fun _ => "t1") 0 []
        [("Ruritania", Info.notFound "No embassy emails found")] =
      ((process_loop 10 (fun _ _ => true) (fun _ => "t1") 1 [] []).1,
        Event.warn "Ruritania" ::
          (process_loop 10 (fun _ _ => true) (fun _ => "t1") 1 [] []).2) :=
  (process_loop_no_email_skip 10 (fun _ _ => true) (fun _ => "t1") 0 []
    "Ruritania" (Info.notFound "No embassy emails found") [] rfl rfl).1

/-- C7, counterexample: the claim says the 3600-unit pause is taken after every
`batch_size` countries processed, counting skipped countries too. With
`batch_size = 1` and a single country that is already in the Send Log, the
first country is processed (`1 % 1 == 0`, a batch boundary), yet the `continue`
in the skip branch jumps past the pause check: the run emits **no** events at
all, in particular zero long pauses where the claim demands one. -/
theorem batch_pause_counterexample :
    process_loop 1 (fun _ _ => true) (fun _ => "t1") 0
        [("Elbonia", LogEntry.mk "e@x" "t0" "sent")]
        [("Elbonia", Info.found ["e@x"])] =
      ([("Elbonia", LogEntry.mk "e@x" "t0" "sent")], []) ∧
    countLong (process_loop 1 (fun _ _ => true) (fun _ => "t1") 0
        [("Elbonia", LogEntry.mk "e@x" "t0" "sent")]
        [("Elbonia", Info.found ["e@x"])]).2 = 0 ∧
    (1 : Nat) % 1 = 0 := by
  decide

/-- C9: Send Log invariants of a run of the loop — (i) an entry present when
the run starts is still present, unchanged, at the end (entries are never
mutated or overwritten); (ii) if the loaded log has pairwise-distinct country
keys then so does the final log (a country appears at most once); (iii) every
entry that appears during the run belongs to a country key of the loaded
scrape mapping, has status `"sent"`, records an email for which the transport
succeeded, and the run's trace contains that successful transmission. -/
theorem send_log_invariant (bs : Nat) (so : String → String → Bool)
    (ts : Nat → String) (log : SendLog) (data : ServiceData) :
    (∀ c v, dictLookup log c = some v →
      dictLookup (process_loop bs so ts 0 log data).1 c = some v) ∧
    ((log.map Prod.fst).Nodup →
      ((process_loop bs so ts 0 log data).1.map Prod.fst).Nodup) ∧
    (∀ c v, dictLookup log c = none →
      dictLookup (process_loop bs so ts 0 log data).1 c = some v →
      c ∈ data.map Prod.fst ∧ so v.email c = true ∧ v.status = "sent" ∧
        Event.send v.email c ∈ (process_loop bs so ts 0 log data).2) :=
  ⟨fun c v hv => run_lookup_mono bs so ts data 0 log c v hv,
   fun hnd => run_keys_nodup bs so ts data 0 log hnd,
   fun c v h0 hv => run_new_entries bs so ts data 0 log c v h0 hv⟩

/-- Witness for C9: a pre-existing entry survives a run that sends to another
country. -/
theorem send_log_invariant_witness :
    dictLookup (process_loop 10 (fun _ _ => true) (fun _ => "t1") 0
        [("Avaria", LogEntry.mk "a@x" "t0" "sent")]
        [("Borduria", Info.found ["b@x"])]).1 "Avaria" =
      some (LogEntry.mk "a@x" "t0" "sent") :=
  (send_log_invariant 10 (fun _ _ => true) (fun _ => "t1")
    [("Avaria", LogEntry.mk "a@x" "t0" "sent")]
    [("Borduria", Info.found ["b@x"])]).1
    "Avaria" (LogEntry.mk "a@x" "t0" "sent") (by decide)

/-- C10: `load_sent_log` returns the empty mapping both when the file is
absent and when reading or parsing it raises (corrupt JSON), and a send run
against such a Send Log is literally the run against an absent one — as if no
country had ever been contacted. -/
theorem load_sent_log_error_empty (e : String) (bs : Nat)
    (so : String → String → Bool) (ts : Nat → String)
    (df : FileState ServiceData) :
    load_sent_log FileState.absent = [] ∧
    load_sent_log (FileState.present (Except.error e)) = [] ∧
    process_embassies bs so ts df (FileState.present (Except.error e)) =
      process_embassies bs so ts df FileState.absent :=
  ⟨rfl, rfl, rfl⟩

end Service
